import Mathlib

/-!
Verification of the pg-fsm worker (src/worker.rs and src/traits.rs).

The task table is modelled as a list of rows; timestamps and durations are
integers (an absolute timeline); every SQL UPDATE becomes a map over the
list, restricted by the WHERE clause; the user step type is abstract, given
by a structure of its decode/encode functions, retry constants and step
function.
-/

namespace PgFsm

/-- A row of the pg_task table, with the columns worker.rs and traits.rs
read and write: id, step (serialized payload), tried, wakeup_at,
is_running, error, updated_at. -/
structure Row where
  id : Nat
  step : String
  tried : Int
  wakeup_at : Int
  is_running : Bool
  error : Option String
  updated_at : Int
  deriving DecidableEq

abbrev Table := List Row

/-- The Task struct of worker.rs (lines 26-32): the projection of a row to
the four columns fetch_closest selects. -/
structure Task where
  id : Nat
  step : String
  tried : Int
  wakeup_at : Int
  deriving DecidableEq

def Task.ofRow (r : Row) : Task :=
  { id := r.id, step := r.step, tried := r.tried, wakeup_at := r.wakeup_at }

/-- UPDATE pg_task SET ... WHERE id equals the given id. -/
def updateById (table : Table) (id : Nat) (f : Row → Row) : Table :=
  table.map (fun r => if r.id = id then f r else r)

/-- The WHERE clause of fetch_closest: is_running = false AND error IS NULL. -/
def eligible (r : Row) : Bool :=
  !r.is_running && r.error.isNone

/-- ORDER BY wakeup_at LIMIT 1: one row of minimal wakeup_at (the first
such row; on ties the SQL order is store-defined). -/
def pick_closest : List Row → Option Row
  | [] => Option.none
  | r :: rs =>
    match pick_closest rs with
    | Option.none => some r
    | some b => if r.wakeup_at ≤ b.wakeup_at then some r else some b

/-- The SELECT of Task::fetch_closest (worker.rs lines 140-173), as the
row it locks. -/
def fetch_closest_row (table : Table) : Option Row :=
  pick_closest (table.filter eligible)

/-- Task::fetch_closest: the locked row projected to the Task struct. -/
def fetch_closest (table : Table) : Option Task :=
  (fetch_closest_row table).map Task.ofRow

/-- Task::mark_running (worker.rs lines 175-189): SET is_running = true,
updated_at = now(). -/
def mark_running (table : Table) (id : Nat) (now : Int) : Table :=
  updateById table id (fun r => { r with is_running := true, updated_at := now })

/-- Worker::unlock_stale_tasks (worker.rs lines 91-104):
UPDATE pg_task SET is_running = false WHERE is_running = true. -/
def unlock_stale_tasks (table : Table) : Table :=
  table.map (fun r => if r.is_running then { r with is_running := false } else r)

/-- Task::save_error (worker.rs lines 238-266): SET is_running = false,
error = the message, updated_at = now, wakeup_at = now (the same bound
value), leaving tried as it is. -/
def save_error (table : Table) (id : Nat) (err : String) (now : Int) : Table :=
  updateById table id (fun r =>
    { r with is_running := false, error := some err,
             updated_at := now, wakeup_at := now })

/-- Task::retry (worker.rs lines 335-370): SET is_running = false,
tried = tried + 1, updated_at = now(), wakeup_at = now + delay. -/
def retry (table : Table) (id : Nat) (delay : Nat) (now : Int) : Table :=
  updateById table id (fun r =>
    { r with is_running := false, tried := r.tried + 1,
             updated_at := now, wakeup_at := now + (delay : Int) })

/-- Task::process_error (worker.rs lines 319-332): retry while
tried < retry_limit, otherwise record the failure. -/
def process_error (table : Table) (id : Nat) (tried retry_limit : Int)
    (retry_delay : Nat) (err : String) (now : Int) : Table :=
  if tried < retry_limit then retry table id retry_delay now
  else save_error table id err now

/-- Task::complete (worker.rs lines 309-316): DELETE FROM pg_task WHERE id. -/
def complete (table : Table) (id : Nat) : Table :=
  table.filter (fun r => r.id != id)

/-- The NextStep result of a user step function (Done, Now, Delayed in the
library's terms). -/
inductive NextStep (α : Type) where
  | done
  | now (step : α)
  | delayed (step : α) (delay : Nat)
  deriving DecidableEq

/-- A user step type: its serde decode/encode, the RETRY_LIMIT and
RETRY_DELAY constants (read through retry_limit/retry_delay of the Step
trait, traits.rs lines 15-32), and the user step function's outcome. -/
structure StepImpl (α : Type) where
  decode : String → Except String α
  encode : α → Except String String
  retry_limit : α → Int
  retry_delay : α → Nat
  step : α → Except String (NextStep α)

/-- Task::save_next_step (worker.rs lines 269-306): serialize the new step;
on failure save the error exactly as a failed step would; on success
SET is_running = false, tried = 0, step = the document,
updated_at = now + delay, wakeup_at = now + delay (one bound value serves
both columns). -/
def save_next_step {α : Type} (impl : StepImpl α) (table : Table) (t : Task)
    (s : α) (delay : Nat) (now : Int) : Table :=
  match impl.encode s with
  | Except.error e => save_error table t.id e now
  | Except.ok doc =>
    updateById table t.id (fun r =>
      { r with is_running := false, tried := 0, step := doc,
               updated_at := now + (delay : Int), wakeup_at := now + (delay : Int) })

/-- Task::run_step (worker.rs lines 202-235). Decode the stored step: on
failure save the error and return ok. Otherwise run the user function and
dispatch its outcome. The returned Except is the function's Result value;
the database itself is modelled as infallible. -/
def run_step {α : Type} (impl : StepImpl α) (table : Table) (t : Task)
    (now : Int) : Table × Except String Unit :=
  match impl.decode t.step with
  | Except.error e => (save_error table t.id e now, Except.ok ())
  | Except.ok s =>
    match impl.step s with
    | Except.error e =>
      (process_error table t.id t.tried (impl.retry_limit s) (impl.retry_delay s) e now,
       Except.ok ())
    | Except.ok NextStep.done => (complete table t.id, Except.ok ())
    | Except.ok (NextStep.now s2) => (save_next_step impl table t s2 0 now, Except.ok ())
    | Except.ok (NextStep.delayed s2 d) => (save_next_step impl table t s2 d now, Except.ok ())

/-- Modelled from the spec: util::chrono_duration_to_std is not under src/;
it converts a signed chrono duration to an unsigned std duration, defined
only for non-negative input. -/
def chrono_duration_to_std (d : Int) : Option Nat :=
  if d < 0 then Option.none else some d.toNat

/-- Task::delay (worker.rs lines 192-199): wakeup_at - now, clamped to zero
when non-positive, converted to an unsigned duration otherwise. -/
def Task.delay (t : Task) (now : Int) : Option Nat :=
  let d := t.wakeup_at - now
  if d ≤ 0 then some 0 else chrono_duration_to_std d

/-- The observable actions of one recv_task iteration, in program order. -/
inductive Ev where
  | subscribe
  | tx_begin
  | fetch
  | mark
  | commit
  | waitFor (d : Int)
  | waitForever
  deriving DecidableEq

/-- The result of one recv_task iteration: return a task (with the table
after mark_running and commit), or commit unchanged and wait. -/
inductive IterResult where
  | ret (t : Task) (table : Table)
  | wait (d : Int) (table : Table)
  | waitForever (table : Table)
  deriving DecidableEq

/-- One iteration of Worker::recv_task (worker.rs lines 107-135): fetch the
closest task; if none, commit and wait forever; if its wakeup_at is still
in the future, commit and wait for the remaining delay; otherwise mark it
running, commit and return it. -/
def recv_iter (table : Table) (now : Int) : IterResult :=
  match fetch_closest table with
  | Option.none => IterResult.waitForever table
  | some t =>
    if t.wakeup_at - now ≤ 0 then IterResult.ret t (mark_running table t.id now)
    else IterResult.wait (t.wakeup_at - now) table

/-- The trace of one recv_task iteration: subscribe comes before the
transaction begins, and the commit precedes any wait (the row lock is
released before sleeping). -/
def recv_iter_events (table : Table) (now : Int) : List Ev :=
  match fetch_closest table with
  | Option.none => [Ev.subscribe, Ev.tx_begin, Ev.fetch, Ev.commit, Ev.waitForever]
  | some t =>
    if t.wakeup_at - now ≤ 0 then [Ev.subscribe, Ev.tx_begin, Ev.fetch, Ev.mark, Ev.commit]
    else [Ev.subscribe, Ev.tx_begin, Ev.fetch, Ev.commit, Ev.waitFor (t.wakeup_at - now)]

/-- The recv_task loop, driven by an environment giving the table contents
and the clock at each iteration, with fuel bounding the iterations
observed. Returns the iteration index and the task, if any was returned. -/
def recv_task (env : Nat → Table × Int) : Nat → Nat → Option (Nat × Task)
  | _, 0 => Option.none
  | i, fuel + 1 =>
    match recv_iter (env i).1 (env i).2 with
    | IterResult.ret t _ => some (i, t)
    | _ => recv_task env (i + 1) fuel

namespace Scheduler

/-- Scheduler::schedule (traits.rs lines 50-66): serialize the step and
INSERT INTO pg_task (step, wakeup_at) VALUES ($1, $2) RETURNING id.
Modelled from the spec for the columns the INSERT leaves to table
defaults (the migration is not under src/): tried = 0, is_running = false,
error NULL, updated_at the insert time. -/
def schedule {α : Type} (impl : StepImpl α) (s : α) (table : Table)
    (nextId : Nat) (now at_ : Int) : Except String (Table × Nat) :=
  match impl.encode s with
  | Except.error e => Except.error e
  | Except.ok doc =>
    Except.ok
      (table ++ [{ id := nextId, step := doc, tried := 0, wakeup_at := at_,
                   is_running := false, error := Option.none, updated_at := now }],
       nextId)

/-- Scheduler::enqueue (traits.rs lines 38-41): schedule at Utc::now(). -/
def enqueue {α : Type} (impl : StepImpl α) (s : α) (table : Table)
    (nextId : Nat) (now : Int) : Except String (Table × Nat) :=
  schedule impl s table nextId now now

/-- Scheduler::delay (traits.rs lines 43-47): schedule at Utc::now() plus
the delay. -/
def delay {α : Type} (impl : StepImpl α) (s : α) (table : Table)
    (nextId : Nat) (now : Int) (d : Nat) : Except String (Table × Nat) :=
  schedule impl s table nextId now (now + (d : Int))

end Scheduler

/-- A pending row whose wakeup time has passed by the times used below. -/
def rowDue : Row :=
  { id := 3, step := "C", tried := 0, wakeup_at := 4,
    is_running := false, error := Option.none, updated_at := 0 }

/-- The Task fetch_closest yields for rowDue. -/
def taskDue : Task := Task.ofRow rowDue

/-- An eligible row, later than rowBlocked. -/
def rowG : Row :=
  { id := 1, step := "A", tried := 0, wakeup_at := 5,
    is_running := false, error := Option.none, updated_at := 0 }

/-- An earlier row that is parked by a non-null error. -/
def rowB : Row :=
  { id := 2, step := "B", tried := 0, wakeup_at := 1,
    is_running := false, error := some "boom", updated_at := 0 }

/-- A parked row used to observe that updates leave error untouched. -/
def rowParked : Row :=
  { id := 7, step := "P", tried := 1, wakeup_at := 0,
    is_running := false, error := some "boom", updated_at := 0 }

/-- The Task projection of rowParked. -/
def taskParked : Task := Task.ofRow rowParked

/-- An unparked row used to observe updated_at after save_next_step. -/
def rowClean : Row :=
  { id := 9, step := "N", tried := 0, wakeup_at := 0,
    is_running := false, error := Option.none, updated_at := 50 }

/-- The Task projection of rowClean. -/
def taskClean : Task := Task.ofRow rowClean

/-- A unit step whose user function always succeeds with Done and whose
encoding always succeeds. -/
def implOk : StepImpl Unit :=
  { decode := fun _ => Except.ok ()
  , encode := fun _ => Except.ok "null"
  , retry_limit := fun _ => 0
  , retry_delay := fun _ => 1
  , step := fun _ => Except.ok NextStep.done }

/-- A unit step whose user function always errs. -/
def implErr : StepImpl Unit :=
  { decode := fun _ => Except.ok ()
  , encode := fun _ => Except.ok "null"
  , retry_limit := fun _ => 2
  , retry_delay := fun _ => 7
  , step := fun _ => Except.error "boom" }

/-- A unit step whose stored document fails to decode. -/
def implBad : StepImpl Unit :=
  { decode := fun _ => Except.error "bad json"
  , encode := fun _ => Except.ok "null"
  , retry_limit := fun _ => 0
  , retry_delay := fun _ => 1
  , step := fun _ => Except.ok NextStep.done }

/-- A unit step whose user function moves to a next step after a delay. -/
def implNext : StepImpl Unit :=
  { decode := fun _ => Except.ok ()
  , encode := fun _ => Except.ok "null"
  , retry_limit := fun _ => 0
  , retry_delay := fun _ => 1
  , step := fun _ => Except.ok (NextStep.delayed () 5) }

/-! Helper lemmas about the selection fold. -/

theorem pick_closest_mem {l : List Row} {r : Row} (h : pick_closest l = some r) :
    r ∈ l := by
  induction l with
  | nil => simp [pick_closest] at h
  | cons a as ih =>
    simp only [pick_closest] at h
    cases has : pick_closest as with
    | none =>
      rw [has] at h
      simp only [Option.some.injEq] at h
      subst h
      exact List.mem_cons_self a as
    | some b =>
      rw [has] at h
      by_cases hle : a.wakeup_at ≤ b.wakeup_at
      · simp only [hle, if_true, Option.some.injEq] at h
        subst h
        exact List.mem_cons_self a as
      · simp only [hle, if_false, Option.some.injEq] at h
        subst h
        exact List.mem_cons_of_mem a (ih has)

theorem pick_closest_eq_none {l : List Row} :
    pick_closest l = Option.none ↔ l = [] := by
  cases l with
  | nil => simp [pick_closest]
  | cons a as =>
    simp only [pick_closest]
    constructor
    · intro h
      exfalso
      cases has : pick_closest as with
      | none =>
        rw [has] at h
        exact Option.noConfusion h
      | some b =>
        rw [has] at h
        dsimp only at h
        split at h <;> exact Option.noConfusion h
    · intro h
      exact List.noConfusion h

theorem pick_closest_min :
    ∀ {l : List Row} {r : Row}, pick_closest l = some r →
      ∀ x ∈ l, r.wakeup_at ≤ x.wakeup_at := by
  intro l
  induction l with
  | nil => intro r h; simp [pick_closest] at h
  | cons a as ih =>
    intro r h
    simp only [pick_closest] at h
    cases has : pick_closest as with
    | none =>
      rw [has] at h
      simp only [Option.some.injEq] at h
      subst h
      have hnil : as = [] := pick_closest_eq_none.mp has
      subst hnil
      intro x hx
      simp only [List.mem_singleton] at hx
      subst hx
      exact le_refl _
    | some b =>
      rw [has] at h
      by_cases hle : a.wakeup_at ≤ b.wakeup_at
      · simp only [hle, if_true, Option.some.injEq] at h
        subst h
        intro x hx
        rcases List.mem_cons.mp hx with hxa | hxas
        · subst hxa; exact le_refl _
        · exact le_trans hle (ih has x hxas)
      · simp only [hle, if_false, Option.some.injEq] at h
        subst h
        intro x hx
        rcases List.mem_cons.mp hx with hxa | hxas
        · subst hxa; exact le_of_lt (lt_of_not_le hle)
        · exact ih has x hxas

theorem eligible_iff {r : Row} :
    eligible r = true ↔ r.is_running = false ∧ r.error = Option.none := by
  simp [eligible, Option.isNone_iff_eq_none]

theorem recv_iter_ret {table : Table} {now : Int} {t : Task} {tbl : Table}
    (h : recv_iter table now = IterResult.ret t tbl) :
    t.wakeup_at ≤ now ∧ fetch_closest table = some t ∧
      tbl = mark_running table t.id now ∧
      recv_iter_events table now =
        [Ev.subscribe, Ev.tx_begin, Ev.fetch, Ev.mark, Ev.commit] := by
  unfold recv_iter at h
  cases hf : fetch_closest table with
  | none =>
    rw [hf] at h
    exact IterResult.noConfusion h
  | some u =>
    rw [hf] at h
    dsimp only at h
    by_cases hle : u.wakeup_at - now ≤ 0
    · simp only [hle, if_true] at h
      injection h with h1 h2
      subst h1
      subst h2
      refine ⟨by omega, rfl, rfl, ?_⟩
      unfold recv_iter_events
      rw [hf]
      simp [hle]
    · simp only [hle, if_false] at h
      exact IterResult.noConfusion h

theorem recv_iter_wait {table : Table} {now d : Int} {tbl : Table}
    (h : recv_iter table now = IterResult.wait d tbl) :
    tbl = table ∧ 0 < d ∧
      (∃ t, fetch_closest table = some t ∧ now < t.wakeup_at ∧ d = t.wakeup_at - now) ∧
      recv_iter_events table now =
        [Ev.subscribe, Ev.tx_begin, Ev.fetch, Ev.commit, Ev.waitFor d] := by
  unfold recv_iter at h
  cases hf : fetch_closest table with
  | none =>
    rw [hf] at h
    exact IterResult.noConfusion h
  | some u =>
    rw [hf] at h
    dsimp only at h
    by_cases hle : u.wakeup_at - now ≤ 0
    · simp only [hle, if_true] at h
      exact IterResult.noConfusion h
    · simp only [hle, if_false] at h
      injection h with h1 h2
      subst h1
      subst h2
      refine ⟨rfl, by omega, ⟨u, rfl, by omega, rfl⟩, ?_⟩
      unfold recv_iter_events
      rw [hf]
      simp [hle]

theorem recv_iter_forever {table : Table} {now : Int} {tbl : Table}
    (h : recv_iter table now = IterResult.waitForever tbl) :
    tbl = table ∧ fetch_closest table = Option.none ∧
      recv_iter_events table now =
        [Ev.subscribe, Ev.tx_begin, Ev.fetch, Ev.commit, Ev.waitForever] := by
  unfold recv_iter at h
  cases hf : fetch_closest table with
  | none =>
    rw [hf] at h
    injection h with h1
    subst h1
    refine ⟨rfl, rfl, ?_⟩
    unfold recv_iter_events
    rw [hf]
  | some u =>
    rw [hf] at h
    dsimp only at h
    by_cases hle : u.wakeup_at - now ≤ 0
    · simp only [hle, if_true] at h
      exact IterResult.noConfusion h
    · simp only [hle, if_false] at h
      exact IterResult.noConfusion h

/-- C1: each recv_task iteration subscribes before beginning the
transaction; with no eligible task it commits and waits forever; with the
earliest task still in the future it commits (releasing the row lock)
before waiting exactly the remaining delay; only when wakeup_at has been
reached does it mark the task running, commit and return it — and the
loop returns only tasks whose wakeup_at is at or before the clock of the
returning iteration. -/
theorem recv_task_spec :
    (∀ (table : Table) (now : Int) (t : Task) (tbl : Table),
        recv_iter table now = IterResult.ret t tbl →
        t.wakeup_at ≤ now ∧ fetch_closest table = some t ∧
        tbl = mark_running table t.id now ∧
        recv_iter_events table now =
          [Ev.subscribe, Ev.tx_begin, Ev.fetch, Ev.mark, Ev.commit]) ∧
    (∀ (table : Table) (now d : Int) (tbl : Table),
        recv_iter table now = IterResult.wait d tbl →
        tbl = table ∧ 0 < d ∧
        (∃ t, fetch_closest table = some t ∧ now < t.wakeup_at ∧
          d = t.wakeup_at - now) ∧
        recv_iter_events table now =
          [Ev.subscribe, Ev.tx_begin, Ev.fetch, Ev.commit, Ev.waitFor d]) ∧
    (∀ (table : Table) (now : Int) (tbl : Table),
        recv_iter table now = IterResult.waitForever tbl →
        tbl = table ∧ fetch_closest table = Option.none ∧
        recv_iter_events table now =
          [Ev.subscribe, Ev.tx_begin, Ev.fetch, Ev.commit, Ev.waitForever]) ∧
    (∀ (env : Nat → Table × Int) (i fuel j : Nat) (t : Task),
        recv_task env i fuel = some (j, t) →
        t.wakeup_at ≤ (env j).2 ∧ fetch_closest (env j).1 = some t) := by
  refine ⟨fun table now t tbl h => recv_iter_ret h,
          fun table now d tbl h => recv_iter_wait h,
          fun table now tbl h => recv_iter_forever h, ?_⟩
  intro env i fuel
  induction fuel generalizing i with
  | zero =>
    intro j t h
    exact Option.noConfusion h
  | succ n ih =>
    intro j t h
    simp only [recv_task] at h
    cases hit : recv_iter (env i).1 (env i).2 with
    | ret t2 tbl2 =>
      rw [hit] at h
      dsimp only at h
      injection h with h1
      injection h1 with hj ht
      subst hj
      subst ht
      rcases recv_iter_ret hit with ⟨hle, hf, _, _⟩
      exact ⟨hle, hf⟩
    | wait d tbl2 =>
      rw [hit] at h
      dsimp only at h
      exact ih (i + 1) j t h
    | waitForever tbl2 =>
      rw [hit] at h
      dsimp only at h
      exact ih (i + 1) j t h

/-- C1 witness: on a one-row table whose task is due at clock 10, the
iteration returns it and the loop returns it at iteration 0. -/
theorem recv_task_spec_witness :
    (taskDue.wakeup_at ≤ 10 ∧ fetch_closest [rowDue] = some taskDue ∧
      mark_running [rowDue] taskDue.id 10 = mark_running [rowDue] taskDue.id 10 ∧
      recv_iter_events [rowDue] 10 =
        [Ev.subscribe, Ev.tx_begin, Ev.fetch, Ev.mark, Ev.commit]) ∧
    (taskDue.wakeup_at ≤ (([rowDue], (10 : Int))).2 ∧
      fetch_closest ([rowDue], (10 : Int)).1 = some taskDue) :=
  ⟨recv_task_spec.1 [rowDue] 10 taskDue (mark_running [rowDue] taskDue.id 10) rfl,
   recv_task_spec.2.2.2 (fun _ => ([rowDue], 10)) 0 1 0 taskDue rfl⟩

/-- C2: fetch_closest returns only a row with is_running = false and error
NULL, of minimal wakeup_at among such rows, returns none exactly when no
such row exists, and a row with a non-null error is never selected. -/
theorem fetch_closest_spec :
    (∀ (table : Table) (r : Row), fetch_closest_row table = some r →
        r ∈ table ∧ r.is_running = false ∧ r.error = Option.none ∧
        ∀ x ∈ table, x.is_running = false → x.error = Option.none →
          r.wakeup_at ≤ x.wakeup_at) ∧
    (∀ table : Table, fetch_closest_row table = Option.none ↔
        ∀ x ∈ table, ¬(x.is_running = false ∧ x.error = Option.none)) ∧
    (∀ (table : Table) (x : Row), x ∈ table → x.error ≠ Option.none →
        fetch_closest_row table ≠ some x) ∧
    (∀ table : Table, fetch_closest table = (fetch_closest_row table).map Task.ofRow) := by
  refine ⟨?_, ?_, ?_, fun table => rfl⟩
  · intro table r h
    have h2 : pick_closest (table.filter eligible) = some r := h
    rcases List.mem_filter.mp (pick_closest_mem h2) with ⟨hmt, hel⟩
    rcases eligible_iff.mp hel with ⟨hrun, herr⟩
    refine ⟨hmt, hrun, herr, ?_⟩
    intro x hx hxr hxe
    exact pick_closest_min h2 x (List.mem_filter.mpr ⟨hx, eligible_iff.mpr ⟨hxr, hxe⟩⟩)
  · intro table
    constructor
    · intro h x hx hcon
      have h2 : pick_closest (table.filter eligible) = Option.none := h
      have hnil : table.filter eligible = [] := pick_closest_eq_none.mp h2
      have hmem : x ∈ table.filter eligible :=
        List.mem_filter.mpr ⟨hx, eligible_iff.mpr hcon⟩
      rw [hnil] at hmem
      exact List.not_mem_nil x hmem
    · intro h
      show pick_closest (table.filter eligible) = Option.none
      rw [pick_closest_eq_none, List.filter_eq_nil_iff]
      intro x hx hel
      exact h x hx (eligible_iff.mp hel)
  · intro table x hx hxe hcon
    have h2 : pick_closest (table.filter eligible) = some x := hcon
    rcases List.mem_filter.mp (pick_closest_mem h2) with ⟨_, hel⟩
    exact hxe (eligible_iff.mp hel).2

/-- C2 witness: on a table whose earliest row is parked by an error, the
later eligible row is the one selected. -/
theorem fetch_closest_spec_witness :
    rowG ∈ [rowB, rowG] ∧ rowG.is_running = false ∧ rowG.error = Option.none ∧
      ∀ x ∈ [rowB, rowG], x.is_running = false → x.error = Option.none →
        rowG.wakeup_at ≤ x.wakeup_at :=
  fetch_closest_spec.1 [rowB, rowG] rowG rfl

/-- C3: a step error is retried while tried is below the retry limit
(tried incremented, is_running cleared, wakeup_at = now plus the retry
delay) and otherwise recorded as a failure (error set, is_running cleared,
wakeup_at = now, tried unchanged); run_step consults the fetched tried and
the constants of the decoded step. -/
theorem process_error_spec :
    (∀ (α : Type) (impl : StepImpl α) (table : Table) (t : Task) (now : Int)
        (s : α) (e : String),
        impl.decode t.step = Except.ok s → impl.step s = Except.error e →
        run_step impl table t now =
          (process_error table t.id t.tried (impl.retry_limit s)
            (impl.retry_delay s) e now,
           Except.ok ())) ∧
    (∀ (table : Table) (id : Nat) (tried limit : Int) (rd : Nat) (e : String)
        (now : Int),
        process_error table id tried limit rd e now =
          table.map (fun r =>
            if r.id = id then
              if tried < limit then
                { r with is_running := false, tried := r.tried + 1,
                         updated_at := now, wakeup_at := now + (rd : Int) }
              else
                { r with is_running := false, error := some e,
                         updated_at := now, wakeup_at := now }
            else r)) := by
  constructor
  · intro α impl table t now s e hdec hstep
    simp only [run_step, hdec, hstep]
  · intro table id tried limit rd e now
    by_cases h : tried < limit <;>
      simp only [process_error, retry, save_error, updateById, h, if_true, if_false]

/-- C3 witness: with tried = 0 and retry limit 2, an erring step is
dispatched through process_error with the fetched counters. -/
theorem process_error_spec_witness :
    run_step implErr [rowDue] taskDue 10 =
      (process_error [rowDue] taskDue.id taskDue.tried (implErr.retry_limit ())
        (implErr.retry_delay ()) "boom" 10,
       Except.ok ()) :=
  process_error_spec.1 Unit implErr [rowDue] taskDue 10 () "boom" rfl rfl

/-- C4: a decode failure parks the task (is_running cleared, error set,
wakeup_at = now) and run_step returns ok — the decode error is not
propagated. -/
theorem run_step_decode_fail :
    ∀ (α : Type) (impl : StepImpl α) (table : Table) (t : Task) (now : Int)
      (e : String),
      impl.decode t.step = Except.error e →
      run_step impl table t now =
        (table.map (fun r =>
           if r.id = t.id then
             { r with is_running := false, error := some e,
                      updated_at := now, wakeup_at := now }
           else r),
         Except.ok ()) := by
  intro α impl table t now e hdec
  simp only [run_step, hdec]
  rfl

/-- C4 witness: a step whose stored document does not decode is parked
with the decode error and run_step returns ok. -/
theorem run_step_decode_fail_witness :
    run_step implBad [rowDue] taskDue 10 =
      ([rowDue].map (fun r =>
         if r.id = taskDue.id then
           { r with is_running := false, error := some "bad json",
                    updated_at := 10, wakeup_at := 10 }
         else r),
       Except.ok ()) :=
  run_step_decode_fail Unit implBad [rowDue] taskDue 10 "bad json" rfl

/-- C5: Next(step) with delay d (0 for the immediate form) overwrites the
stored document with the encoding, resets tried to 0, clears is_running
and sets wakeup_at to now plus d; an encoding failure parks the task
exactly as a decode failure does. -/
theorem save_next_step_spec :
    (∀ (α : Type) (impl : StepImpl α) (table : Table) (t : Task) (now : Int)
        (s0 s2 : α),
        impl.decode t.step = Except.ok s0 →
        impl.step s0 = Except.ok (NextStep.now s2) →
        run_step impl table t now = (save_next_step impl table t s2 0 now, Except.ok ())) ∧
    (∀ (α : Type) (impl : StepImpl α) (table : Table) (t : Task) (now : Int)
        (s0 s2 : α) (d : Nat),
        impl.decode t.step = Except.ok s0 →
        impl.step s0 = Except.ok (NextStep.delayed s2 d) →
        run_step impl table t now = (save_next_step impl table t s2 d now, Except.ok ())) ∧
    (∀ (α : Type) (impl : StepImpl α) (table : Table) (t : Task) (s : α)
        (d : Nat) (now : Int) (doc : String),
        impl.encode s = Except.ok doc →
        save_next_step impl table t s d now =
          table.map (fun r =>
            if r.id = t.id then
              { r with is_running := false, tried := 0, step := doc,
                       updated_at := now + (d : Int), wakeup_at := now + (d : Int) }
            else r)) ∧
    (∀ (α : Type) (impl : StepImpl α) (table : Table) (t : Task) (s : α)
        (d : Nat) (now : Int) (e : String),
        impl.encode s = Except.error e →
        save_next_step impl table t s d now =
          table.map (fun r =>
            if r.id = t.id then
              { r with is_running := false, error := some e,
                       updated_at := now, wakeup_at := now }
            else r)) := by
  refine ⟨?_, ?_, ?_, ?_⟩
  · intro α impl table t now s0 s2 hdec hstep
    simp only [run_step, hdec, hstep]
  · intro α impl table t now s0 s2 d hdec hstep
    simp only [run_step, hdec, hstep]
  · intro α impl table t s d now doc henc
    simp only [save_next_step, henc]
    rfl
  · intro α impl table t s d now e henc
    simp only [save_next_step, henc]
    rfl

/-- C5 witness: a delayed Next outcome goes through save_next_step with
its delay, and with a successful encoding the row is rewritten as the
next-step outcome prescribes. -/
theorem save_next_step_spec_witness :
    run_step implNext [rowDue] taskDue 10 =
      (save_next_step implNext [rowDue] taskDue () 5 10, Except.ok ()) ∧
    save_next_step implOk [rowDue] taskDue () 5 10 =
      [rowDue].map (fun r =>
        if r.id = taskDue.id then
          { r with is_running := false, tried := 0, step := "null",
                   updated_at := 10 + ((5 : Nat) : Int),
                   wakeup_at := 10 + ((5 : Nat) : Int) }
        else r) :=
  ⟨save_next_step_spec.2.1 Unit implNext [rowDue] taskDue 10 () () 5 rfl rfl,
   save_next_step_spec.2.2.1 Unit implOk [rowDue] taskDue () 5 10 "null" rfl⟩

/-- C6 counterexample: recording a next-step outcome on a row whose error
is non-null leaves the error in place — the UPDATE does not set error to
NULL. -/
theorem next_step_error_cex :
    (save_next_step implOk [rowParked] taskParked () 0 100).map Row.error =
      [some "boom"] ∧
    some "boom" ≠ (Option.none : Option String) :=
  ⟨rfl, by decide⟩

/-- C6 amended: the next-step outcome (when encoding succeeds) and the
retry outcome leave the error column of every row unchanged; only the
fail outcome writes to error. -/
theorem outcome_error_frame :
    (∀ (α : Type) (impl : StepImpl α) (table : Table) (t : Task) (s : α)
        (d : Nat) (now : Int) (doc : String),
        impl.encode s = Except.ok doc →
        (save_next_step impl table t s d now).map Row.error = table.map Row.error) ∧
    (∀ (table : Table) (id : Nat) (rd : Nat) (now : Int),
        (retry table id rd now).map Row.error = table.map Row.error) := by
  constructor
  · intro α impl table t s d now doc henc
    simp only [save_next_step, henc, updateById, List.map_map]
    apply List.map_congr_left
    intro r hr
    by_cases h : r.id = t.id <;> simp [Function.comp, h]
  · intro table id rd now
    simp only [retry, updateById, List.map_map]
    apply List.map_congr_left
    intro r hr
    by_cases h : r.id = id <;> simp [Function.comp, h]

/-- C6 amended witness: on a parked single-row table, a next-step outcome
leaves the error column as it was. -/
theorem outcome_error_frame_witness :
    (save_next_step implOk [rowParked] taskParked () 3 100).map Row.error =
      [rowParked].map Row.error :=
  outcome_error_frame.1 Unit implOk [rowParked] taskParked () 3 100 "null" rfl

/-- C7: evaluating the code at the failing input — recording a next-step
outcome with delay 5 at clock 100 writes updated_at = 105, a future time,
not the mutation time 100 (the UPDATE binds one value, now plus the delay,
for both updated_at and wakeup_at). -/
theorem next_step_updated_at_future :
    (save_next_step implOk [rowClean] taskClean () 5 100).map Row.updated_at =
      [(105 : Int)] ∧
    (105 : Int) ≠ 100 :=
  ⟨rfl, by decide⟩

/-- C8: unlock_stale_tasks clears is_running on every row and applying it
twice yields the same table as applying it once. -/
theorem unlock_stale_tasks_spec :
    ∀ table : Table,
      (unlock_stale_tasks table).all (fun r => !r.is_running) = true ∧
      unlock_stale_tasks (unlock_stale_tasks table) = unlock_stale_tasks table := by
  intro table
  constructor
  · rw [List.all_eq_true]
    intro r hr
    rcases List.mem_map.mp hr with ⟨s, hs, hrs⟩
    subst hrs
    by_cases h : s.is_running <;> simp [unlock_stale_tasks, h]
  · simp only [unlock_stale_tasks, List.map_map]
    apply List.map_congr_left
    intro r hr
    by_cases h : r.is_running <;> simp [Function.comp, h]

/-- C9: enqueue schedules at now, delay schedules at now plus the
duration, and schedule serializes the step and appends one row carrying
the given wakeup_at, returning its id. -/
theorem scheduler_spec :
    (∀ (α : Type) (impl : StepImpl α) (s : α) (table : Table) (nextId : Nat)
        (now : Int),
        Scheduler.enqueue impl s table nextId now =
          Scheduler.schedule impl s table nextId now now) ∧
    (∀ (α : Type) (impl : StepImpl α) (s : α) (table : Table) (nextId : Nat)
        (now : Int) (d : Nat),
        Scheduler.delay impl s table nextId now d =
          Scheduler.schedule impl s table nextId now (now + (d : Int))) ∧
    (∀ (α : Type) (impl : StepImpl α) (s : α) (table : Table) (nextId : Nat)
        (now at_ : Int) (doc : String), impl.encode s = Except.ok doc →
        ∃ row : Row,
          Scheduler.schedule impl s table nextId now at_ =
            Except.ok (table ++ [row], nextId) ∧
          row.step = doc ∧ row.wakeup_at = at_ ∧ row.id = nextId) := by
  refine ⟨fun α impl s table nextId now => rfl,
          fun α impl s table nextId now d => rfl, ?_⟩
  intro α impl s table nextId now at_ doc henc
  refine ⟨{ id := nextId, step := doc, tried := 0, wakeup_at := at_,
            is_running := false, error := Option.none, updated_at := now },
          ?_, rfl, rfl, rfl⟩
  simp only [Scheduler.schedule, henc]

/-- C9 witness: scheduling a concrete encodable step appends one row with
the requested wakeup time and returns its id. -/
theorem scheduler_spec_witness :
    ∃ row : Row,
      Scheduler.schedule implOk () [] 0 100 250 = Except.ok (([] : Table) ++ [row], 0) ∧
      row.step = "null" ∧ row.wakeup_at = 250 ∧ row.id = 0 :=
  scheduler_spec.2.2 Unit implOk () [] 0 100 250 "null" rfl

/-- C10: Task::delay is total; it returns zero once the wakeup time has
passed and exactly the remaining time otherwise, so the signed-to-unsigned
conversion is never reached with a negative value. -/
theorem task_delay_spec :
    ∀ (t : Task) (now : Int),
      (Task.delay t now).isSome = true ∧
      (t.wakeup_at ≤ now → Task.delay t now = some 0) ∧
      (now < t.wakeup_at →
        Task.delay t now = some (t.wakeup_at - now).toNat ∧
        ((t.wakeup_at - now).toNat : Int) = t.wakeup_at - now) := by
  intro t now
  by_cases h : t.wakeup_at - now ≤ 0
  · have hd : Task.delay t now = some 0 := by
      simp [Task.delay, h]
    exact ⟨by rw [hd]; rfl, fun _ => hd, fun hlt => absurd hlt (by omega)⟩
  · have h0 : ¬ t.wakeup_at - now < 0 := by omega
    have hd : Task.delay t now = some (t.wakeup_at - now).toNat := by
      simp [Task.delay, chrono_duration_to_std, h, h0]
    exact ⟨by rw [hd]; rfl, fun hle => absurd hle (by omega),
           fun hlt => ⟨hd, Int.toNat_of_nonneg (by omega)⟩⟩

/-- C10 witness: a passed wakeup time yields a zero delay and a future
one yields exactly the remaining time. -/
theorem task_delay_spec_witness :
    Task.delay taskDue 10 = some 0 ∧
    (Task.delay taskDue 0 = some (taskDue.wakeup_at - 0).toNat ∧
     ((taskDue.wakeup_at - 0).toNat : Int) = taskDue.wakeup_at - 0) :=
  ⟨(task_delay_spec taskDue 10).2.1 (by decide),
   (task_delay_spec taskDue 0).2.2 (by decide)⟩

end PgFsm
